import Mathlib

/-!
Shallow embedding of the query-matching, ranking, fallback, debounce and
selection logic of the react-autocomplete-pro component
(src/AutocompletePro.tsx, src/types.ts), together with theorems settling
the specification claims about it.  JavaScript strings are modelled as
Lean strings (all inputs of interest are ASCII), JS numbers used as
integer quantities are modelled as Nat or Int, and the fractional
fuzzyThreshold together with the similarity comparison is modelled over
the rationals.
-/

namespace Autocomplete

/-- Candidate record, from the AutocompleteOption interface in types.ts.
Optional fields are Option or default-false Booleans; a missing
popularity is treated as 0 at every use site, mirroring the
JavaScript expression popularity-or-zero. -/
structure AutocompleteOption where
  id : String
  label : String
  value : String
  category : Option String := none
  description : Option String := none
  popularity : Option Int := none
  recent : Bool := false
  trending : Bool := false
deriving DecidableEq, Repr

/-- The four values of the algorithm field of SearchConfig in types.ts. -/
inductive Algorithm where
  | exact
  | fuzzy
  | semantic
  | hybrid
deriving DecidableEq, Repr

/-- SearchConfig from types.ts.  maxResults is an Int so that the
out-of-range (negative) values the error-handling claims are about can
be represented; fuzzyThreshold is a rational. -/
structure SearchConfig where
  algorithm : Algorithm
  fuzzyThreshold : ℚ
  minQueryLength : Nat
  maxResults : Int
  debounceMs : Nat
  caseSensitive : Bool
  accentSensitive : Bool
deriving DecidableEq, Repr

/-- DEFAULT_SEARCH_CONFIG from AutocompletePro.tsx lines 6-14. -/
def DEFAULT_SEARCH_CONFIG : SearchConfig :=
  { algorithm := Algorithm.hybrid
    fuzzyThreshold := mkRat 1 2
    minQueryLength := 1
    maxResults := 10
    debounceMs := 300
    caseSensitive := false
    accentSensitive := false }

/-- ASCII lower-casing of one character, as JavaScript toLowerCase acts
on the ASCII inputs used throughout. -/
def lowerChar (c : Char) : Char :=
  if 65 ≤ c.toNat ∧ c.toNat ≤ 90 then Char.ofNat (c.toNat + 32) else c

/-- Model of String.prototype.toLowerCase restricted to ASCII. -/
def strLower (s : String) : String :=
  String.mk (s.data.map lowerChar)

/-- First list is a leading segment of the second (used for both the
startsWith calls of the ranker and as the kernel of includes). -/
def startsWithList : List Char → List Char → Bool
  | [], _ => true
  | _ :: _, [] => false
  | p :: ps, c :: cs => decide (p = c) && startsWithList ps cs

/-- Model of String.prototype.includes: the first list occurs
contiguously inside the second. -/
def containsList (pat : List Char) : List Char → Bool
  | [] => startsWithList pat []
  | c :: cs => startsWithList pat (c :: cs) || containsList pat cs

/-- Whitespace test of the regular expression backslash-s for the
characters that occur in the data. -/
def isWsChar (c : Char) : Bool :=
  c = ' ' || c = '\t' || c = '\n' || c = '\r'

/-- Worker for splitWs.  The Boolean is true while a whitespace run is
being skipped (the token before it has already been emitted). -/
def splitWsGo : Bool → List Char → List Char → List String
  | _, cur, [] => [String.mk cur.reverse]
  | false, cur, c :: rest =>
      if isWsChar c then String.mk cur.reverse :: splitWsGo true [] rest
      else splitWsGo false (c :: cur) rest
  | true, cur, c :: rest =>
      if isWsChar c then splitWsGo true cur rest
      else splitWsGo false (c :: cur) rest

/-- Model of JavaScript split on the regex of one-or-more whitespace:
maximal whitespace runs separate tokens, and leading or trailing runs
produce empty tokens, exactly as String.prototype.split does. -/
def splitWs (s : String) : List String :=
  splitWsGo false [] s.data

/-- One inner step of the dynamic-programming row of
levenshteinDistance: given the remaining characters of a, the previous
row starting at the diagonal entry, and the entry to the left, produce
the rest of the current row (AutocompletePro.tsx lines 55-64). -/
def levAux (c : Char) : List Char → List Nat → Nat → List Nat
  | [], _, _ => []
  | _ :: _, [], _ => []
  | x :: xs, diag :: rest, left =>
      let up := rest.headD 0
      let cost : Nat := if x = c then 0 else 1
      let cur := Nat.min (Nat.min (left + 1) (up + 1)) (diag + cost)
      cur :: levAux c xs rest cur

/-- levenshteinDistance from AutocompletePro.tsx lines 49-67: the full
matrix is built row by row and the bottom-right entry returned. -/
def levenshteinDistance (a b : String) : Nat :=
  let as := a.data
  let row0 : List Nat := List.range (as.length + 1)
  let fin := (b.data.foldl
      (fun (acc : List Nat × Nat) c =>
        let j := acc.2 + 1
        (j :: levAux c as acc.1 j, j))
      (row0, 0)).1
  fin.getLastD 0

/-- The comparison similarity-at-least-threshold where similarity is
1 - distance / maxLen.  When maxLen is 0 the JavaScript expression is a
NaN comparison, which is false; the denominator is zero exactly in that
case.  The comparison is stated in the cross-multiplied integer form
t.num * maxLen less-or-equal (maxLen - d) * t.den, which for positive
maxLen is equivalent to t less-or-equal 1 - d / maxLen (the lemma
simGE_eq_decide below certifies this), and which the kernel can
evaluate on concrete inputs. -/
def simGE (d maxLen : Nat) (t : ℚ) : Bool :=
  if maxLen = 0 then false
  else decide (t.num * maxLen ≤ ((maxLen : Int) - (d : Int)) * t.den)

/-- fuzzyMatch from AutocompletePro.tsx lines 17-47: substring
containment, then per word a whole-word similarity test and a sliding
window of query length over words at least as long as the query. -/
def fuzzyMatch (query text : String) (threshold : ℚ) : Bool :=
  let queryLower := strLower query
  let textLower := strLower text
  if containsList queryLower.data textLower.data then true
  else
    (splitWs textLower).any (fun word =>
      simGE (levenshteinDistance queryLower word)
        (Nat.max queryLower.length word.length) threshold
      ||
      (decide (queryLower.length ≤ word.length) &&
        (List.range (word.length - queryLower.length + 1)).any (fun i =>
          let sub := String.mk ((word.data.drop i).take queryLower.length)
          simGE (levenshteinDistance queryLower sub) queryLower.length threshold)))

/-- Names of the fields the filterBy prop may select
(AutocompletePro.tsx line 99 and line 141). -/
inductive Field where
  | id
  | label
  | value
  | category
  | description
deriving DecidableEq, Repr

/-- Dynamic field access with the JavaScript or-empty-string default
applied to missing optional fields (AutocompletePro.tsx line 141). -/
def getFieldStr (o : AutocompleteOption) : Field → String
  | Field.id => o.id
  | Field.label => o.label
  | Field.value => o.value
  | Field.category => o.category.getD ""
  | Field.description => o.description.getD ""

/-- The default filterBy list from AutocompletePro.tsx line 99. -/
def defaultFilterBy : List Field :=
  [Field.label, Field.value, Field.description]

/-- The searchable text of a candidate: the selected fields joined with
single spaces (AutocompletePro.tsx line 141). -/
def searchTextOf (filterBy : List Field) (o : AutocompleteOption) : String :=
  String.intercalate " " (filterBy.map (getFieldStr o))

/-- The per-candidate inclusion predicate of the filter, switching on
the algorithm exactly as the switch statement at AutocompletePro.tsx
lines 143-160 does. -/
def matchesQuery (cfg : SearchConfig) (filterBy : List Field)
    (searchQuery : String) (o : AutocompleteOption) : Bool :=
  let searchText := searchTextOf filterBy o
  match cfg.algorithm with
  | Algorithm.exact =>
      if cfg.caseSensitive then containsList searchQuery.data searchText.data
      else containsList (strLower searchQuery).data (strLower searchText).data
  | Algorithm.fuzzy => fuzzyMatch searchQuery searchText cfg.fuzzyThreshold
  | Algorithm.semantic =>
      containsList (strLower searchQuery).data (strLower searchText).data ||
      ((strLower searchQuery).splitOn " ").any (fun word =>
        containsList word.data (strLower searchText).data)
  | Algorithm.hybrid =>
      containsList (strLower searchQuery).data (strLower searchText).data ||
      fuzzyMatch searchQuery searchText cfg.fuzzyThreshold

/-- Popularity with the or-zero default (AutocompletePro.tsx
lines 133 and 172). -/
def popOf (o : AutocompleteOption) : Int :=
  o.popularity.getD 0

/-- Whether the label of a candidate starts, case-insensitively, with
the query (AutocompletePro.tsx lines 166-167). -/
def exactFlag (searchQuery : String) (o : AutocompleteOption) : Bool :=
  startsWithList (strLower searchQuery).data (strLower o.label).data

/-- Boolean sort precedence derived from the ranking comparator of
AutocompletePro.tsx lines 164-173: a may stay before b exactly when the
comparator value is nonpositive, that is when a is a prefix match and b
is not, or both or neither are and the popularity of b does not exceed
that of a. -/
def rankLE (searchQuery : String) (a b : AutocompleteOption) : Bool :=
  if exactFlag searchQuery a = exactFlag searchQuery b then
    decide (popOf b ≤ popOf a)
  else
    exactFlag searchQuery a

/-- Insert an element into a list directly before the first entry it
may precede. -/
def orderedInsertW (le : α → α → Bool) (a : α) : List α → List α
  | [] => [a]
  | b :: l => if le a b then a :: b :: l else b :: orderedInsertW le a l

/-- Stable sort by a Boolean precedence.  ECMAScript array sort is
required to be stable, and for a total transitive precedence every
stable sort produces the same list, so insertion sort is a faithful
model of it; this structural form also evaluates inside the kernel. -/
def sortWith (le : α → α → Bool) : List α → List α
  | [] => []
  | b :: l => orderedInsertW le b (sortWith le l)

/-- The Ranker: a stable sort of the matched candidates under the
comparator of AutocompletePro.tsx lines 164-173. -/
def rank (searchQuery : String) (l : List AutocompleteOption) :
    List AutocompleteOption :=
  sortWith (rankLE searchQuery) l

/-- The descending-popularity precedence used for the popular slice of
the fallback path (AutocompletePro.tsx line 133). -/
def popLE (a b : AutocompleteOption) : Bool :=
  decide (popOf b ≤ popOf a)

/-- JavaScript slice from index 0 to an end index that may be negative:
a negative end counts from the end of the array, and the result is
always an initial segment. -/
def jsSliceTo (l : List α) (e : Int) : List α :=
  if e < 0 then l.take (l.length - (-e).toNat)
  else l.take e.toNat

/-- Pair every element with its position, starting at the given index,
as the array index argument of a JavaScript filter callback does. -/
def withIdx : Nat → List α → List (Nat × α)
  | _, [] => []
  | i, x :: xs => (i, x) :: withIdx (i + 1) xs

/-- JavaScript Array.prototype.findIndex: the index of the first
element satisfying the predicate, or -1 when none does. -/
def jsFindIndex (p : α → Bool) : List α → Int
  | [] => -1
  | x :: xs =>
      if p x then 0
      else
        let r := jsFindIndex p xs
        if r = -1 then -1 else r + 1

/-- The deduplication filter of the fallback path
(AutocompletePro.tsx line 136): an element is kept exactly when the
first element of the whole list with the same id sits at the position
of the element itself. -/
def dedupById (l : List AutocompleteOption) : List AutocompleteOption :=
  ((withIdx 0 l).filter
    (fun p => jsFindIndex (fun o => o.id == p.2.id) l == (p.1 : Int))).map
    (fun p => p.2)

/-- The fallback branch of filterOptions (AutocompletePro.tsx
lines 129-138): up to three recent and three trending candidates in
input order, the first four of the popularity-sorted list, concatenated,
deduplicated by id and cut to maxResults. -/
def fallbackResult (cfg : SearchConfig) (showRecent showTrending : Bool)
    (availableOptions : List AutocompleteOption) : List AutocompleteOption :=
  let recent := if showRecent then
    (availableOptions.filter (fun o => o.recent)).take 3 else []
  let trending := if showTrending then
    (availableOptions.filter (fun o => o.trending)).take 3 else []
  let popular := (sortWith popLE availableOptions).take 4
  jsSliceTo (dedupById (recent ++ trending ++ popular)) cfg.maxResults

/-- filterOptions from AutocompletePro.tsx lines 128-175.  The guard is
the disjunction not-searchQuery (empty string) or length below
minQueryLength; otherwise the candidates are filtered by the selected
strategy, ranked, and cut to maxResults. -/
def filterOptions (cfg : SearchConfig) (filterBy : List Field)
    (showRecent showTrending : Bool) (searchQuery : String)
    (availableOptions : List AutocompleteOption) : List AutocompleteOption :=
  if searchQuery.length = 0 ∨ searchQuery.length < cfg.minQueryLength then
    fallbackResult cfg showRecent showTrending availableOptions
  else
    jsSliceTo
      (sortWith (rankLE searchQuery)
        (availableOptions.filter (matchesQuery cfg filterBy searchQuery)))
      cfg.maxResults

/-- The contents of the availableOptions array of the caller after a
call to filterOptions.  On the fallback branch line 133 calls
Array.prototype.sort directly on availableOptions, which sorts the
array in place; on the other branch only fresh arrays produced by
filter are sorted, so the argument is untouched. -/
def filterOptionsPost (cfg : SearchConfig) (searchQuery : String)
    (availableOptions : List AutocompleteOption) : List AutocompleteOption :=
  if searchQuery.length = 0 ∨ searchQuery.length < cfg.minQueryLength then
    sortWith popLE availableOptions
  else
    availableOptions

/-- Outcome of the async onSearch collaborator once settled: a resolved
candidate list or a rejection. -/
inductive FetchResult where
  | ok (results : List AutocompleteOption)
  | err
deriving DecidableEq, Repr

/-- performSearch from AutocompletePro.tsx lines 178-193, with the
settled fetch modelled as a function from queries to FetchResult.  The
first component records whether onSearch was invoked; the second is the
value passed to setFilteredOptions: the filtered fetch results on
success, the empty list on failure, and the locally filtered options
when onSearch is absent or the query is below minQueryLength. -/
def performSearch (cfg : SearchConfig) (filterBy : List Field)
    (showRecent showTrending : Bool)
    (onSearch : Option (String → FetchResult))
    (options : List AutocompleteOption) (searchQuery : String) :
    Bool × List AutocompleteOption :=
  match onSearch with
  | some fetch =>
      if cfg.minQueryLength ≤ searchQuery.length then
        (true,
          match fetch searchQuery with
          | FetchResult.ok results =>
              filterOptions cfg filterBy showRecent showTrending searchQuery results
          | FetchResult.err => [])
      else
        (false, filterOptions cfg filterBy showRecent showTrending searchQuery options)
  | none =>
      (false, filterOptions cfg filterBy showRecent showTrending searchQuery options)

/-- One settled fetch: the query it was issued for and the candidates
it resolved with. -/
structure Resolution where
  query : String
  results : List AutocompleteOption
deriving DecidableEq, Repr

/-- The displayed result list after a sequence of fetch resolutions is
processed in arrival order.  The success continuation of performSearch
(AutocompletePro.tsx line 183) calls setFilteredOptions
unconditionally, with no staleness tag or generation check, so each
arriving resolution replaces the display wholesale. -/
def applyResolutions (cfg : SearchConfig) (filterBy : List Field)
    (showRecent showTrending : Bool) (init : List AutocompleteOption)
    (rs : List Resolution) : List AutocompleteOption :=
  rs.foldl
    (fun _ r => filterOptions cfg filterBy showRecent showTrending r.query r.results)
    init

/-- handleRemoveTag from AutocompletePro.tsx lines 231-236, returning
the list onChange is invoked with, or none when onChange is not
invoked.  In multi mode the callback is invoked with the filtered
selection unconditionally. -/
def handleRemoveTag (multiple : Bool)
    (selectedValues : List AutocompleteOption) (optionId : String) :
    Option (List AutocompleteOption) :=
  if multiple then
    some (selectedValues.filter (fun v => v.id != optionId))
  else
    none

/-- The debounce logic of handleInputChange (AutocompletePro.tsx
lines 196-208) as an event semantics.  Each event carries an arrival
time and the query text; the state is the pending timer, a deadline
paired with its query.  An arriving event first lets a pending timer
whose deadline has passed fire (emitting its search), then clears any
remaining timer and schedules a new one debounceMs in the future; after
the last event the surviving timer fires.  The returned list is every
query for which performSearch is actually invoked, in order. -/
def runDebounce (debounceMs : Nat) :
    List (Nat × String) → Option (Nat × String) → List String
  | [], pending =>
      match pending with
      | some (_, q) => [q]
      | none => []
  | (t, q) :: rest, pending =>
      (match pending with
        | some (d, q') => if d ≤ t then [q'] else []
        | none => []) ++
      runDebounce debounceMs rest (some (t + debounceMs, q))

/-- Membership of a string in a list of already seen ids. -/
def idMem (s : String) : List String → Bool
  | [] => false
  | x :: xs => x == s || idMem s xs

/-- Modelled from the spec: deduplicate by id keeping the first
occurrence, carrying the set of ids already emitted. -/
def dedupFirstOcc (seen : List String) :
    List AutocompleteOption → List AutocompleteOption
  | [] => []
  | x :: xs =>
      if idMem x.id seen then dedupFirstOcc seen xs
      else x :: dedupFirstOcc (x.id :: seen) xs

/-- Modelled from the spec, section FallbackSelector: the first three
recent candidates in input order when showRecent is on, then the first
three trending ones when showTrending is on, then the first four of the
stable descending-popularity sort, deduplicated by id keeping the first
occurrence and truncated to maxResults. -/
def fallbackSpec (cfg : SearchConfig) (showRecent showTrending : Bool)
    (opts : List AutocompleteOption) : List AutocompleteOption :=
  let recentSlice := if showRecent then
    (opts.filter (fun o => o.recent)).take 3 else []
  let trendingSlice := if showTrending then
    (opts.filter (fun o => o.trending)).take 3 else []
  let popularSlice := (sortWith popLE opts).take 4
  (dedupFirstOcc [] (recentSlice ++ trendingSlice ++ popularSlice)).take
    cfg.maxResults.toNat

/-- Modelled from the spec, section 7 on error handling: an
out-of-range maxResults is clamped to the nearest valid bound, the
least positive integer. -/
def clampMaxResults (m : Int) : Int := max 1 m

/-- Concrete candidate from the hybrid typo scenario of the spec. -/
def macbookPro : AutocompleteOption :=
  { id := "1", label := "MacBook Pro", value := "", popularity := some 90 }

/-- Concrete candidate from the hybrid typo scenario of the spec. -/
def macbookAir : AutocompleteOption :=
  { id := "2", label := "MacBook Air", value := "", popularity := some 70 }

/-- Concrete candidate for witness and counterexample inputs. -/
def optA : AutocompleteOption :=
  { id := "a", label := "Alpha", value := "alpha", popularity := some 10 }

/-- Concrete candidate for witness and counterexample inputs. -/
def optB : AutocompleteOption :=
  { id := "b", label := "Beta", value := "beta", popularity := some 20 }

/-- Concrete candidate a fetch for the query iphone resolves with. -/
def iphoneOpt : AutocompleteOption :=
  { id := "i1", label := "iPhone 15", value := "iphone-15" }

/-- Concrete candidate a fetch for the query ip resolves with. -/
def ipOpt : AutocompleteOption :=
  { id := "i9", label := "IP Camera", value := "ip-camera" }

/-- Concrete recent candidate from the fallback scenario of the spec. -/
def recOpt : AutocompleteOption :=
  { id := "r", label := "Recent item", value := "", recent := true }

/-- Concrete candidate of popularity 10. -/
def pop10 : AutocompleteOption :=
  { id := "p10", label := "Pop ten", value := "", popularity := some 10 }

/-- Concrete candidate of popularity 20. -/
def pop20 : AutocompleteOption :=
  { id := "p20", label := "Pop twenty", value := "", popularity := some 20 }

/-- Concrete candidate of popularity 30. -/
def pop30 : AutocompleteOption :=
  { id := "p30", label := "Pop thirty", value := "", popularity := some 30 }

/-- Two candidates with equal comparator keys: equal popularity and the
same prefix-match status against any query that matches neither label. -/
def tieA : AutocompleteOption :=
  { id := "t1", label := "Alpha", value := "", popularity := some 5 }

/-- Second of the two tied candidates. -/
def tieB : AutocompleteOption :=
  { id := "t2", label := "Beta", value := "", popularity := some 5 }

/-- A concrete async collaborator for witness inputs. -/
def fetchStub : String → FetchResult := fun _ => FetchResult.ok []

/-- On a positive denominator, simGE is exactly the source comparison
similarity at least threshold with similarity 1 - d / maxLen over the
rationals. -/
theorem simGE_eq_decide (d m : Nat) (t : ℚ) (h : m ≠ 0) :
    simGE d m t = decide (t ≤ (1 : ℚ) - (d : ℚ) / (m : ℚ)) := by
  have hm : (0 : ℚ) < (m : ℚ) := by
    exact_mod_cast Nat.pos_of_ne_zero h
  have hden : (0 : ℚ) < (t.den : ℚ) := by exact_mod_cast t.pos
  have hnum : (t.num : ℚ) = t * (t.den : ℚ) := by
    rw [← div_eq_iff (ne_of_gt hden)]
    exact Rat.num_div_den t
  have hrw : (1 : ℚ) - (d : ℚ) / (m : ℚ) = ((m : ℚ) - (d : ℚ)) / (m : ℚ) := by
    field_simp
  have key : ((t.num : ℚ) * (m : ℚ) ≤ ((m : ℚ) - (d : ℚ)) * (t.den : ℚ)) ↔
      (t * (m : ℚ) ≤ (m : ℚ) - (d : ℚ)) := by
    rw [hnum]
    rw [show t * (t.den : ℚ) * (m : ℚ) = t * (m : ℚ) * (t.den : ℚ) from by ring]
    exact mul_le_mul_right hden
  have hcast : (t.num * m ≤ ((m : Int) - (d : Int)) * t.den) ↔
      ((t.num : ℚ) * (m : ℚ) ≤ ((m : ℚ) - (d : ℚ)) * (t.den : ℚ)) := by
    constructor
    · intro hle
      exact_mod_cast hle
    · intro hle
      exact_mod_cast hle
  simp only [simGE, if_neg h]
  rw [decide_eq_decide]
  rw [hcast, key, hrw, le_div_iff₀ hm]

theorem orderedInsertW_eq (le : α → α → Bool) (a : α) (l : List α) :
    orderedInsertW le a l = List.orderedInsert (fun x y => le x y = true) a l := by
  induction l with
  | nil => rfl
  | cons b l ih =>
      by_cases h : le a b = true
      · simp [orderedInsertW, List.orderedInsert, h]
      · simp [orderedInsertW, List.orderedInsert, h, ih]

theorem sortWith_eq (le : α → α → Bool) (l : List α) :
    sortWith le l = List.insertionSort (fun x y => le x y = true) l := by
  induction l with
  | nil => rfl
  | cons b l ih => simp [sortWith, List.insertionSort, ih, orderedInsertW_eq]

theorem jsSliceTo_of_nonneg (l : List α) (e : Int) (h : 0 ≤ e) :
    jsSliceTo l e = l.take e.toNat := by
  simp [jsSliceTo, not_lt.mpr h]

theorem idMem_append (s : String) (xs : List String) (a : String) :
    idMem s (xs ++ [a]) = (idMem s xs || (a == s)) := by
  induction xs with
  | nil => simp [idMem]
  | cons x xs ih =>
      show ((x == s) || idMem s (xs ++ [a])) = (((x == s) || idMem s xs) || (a == s))
      rw [ih, Bool.or_assoc]

theorem idMem_eq_true_iff (s : String) (xs : List String) :
    idMem s xs = true ↔ ∃ x ∈ xs, x = s := by
  induction xs with
  | nil => simp [idMem]
  | cons x xs ih =>
      simp [idMem, ih]
      rw [eq_comm]

theorem dedupFirstOcc_congr :
    ∀ (l : List AutocompleteOption) (b1 b2 : List String),
    (∀ s, idMem s b1 = idMem s b2) → dedupFirstOcc b1 l = dedupFirstOcc b2 l := by
  intro l
  induction l with
  | nil => intro b1 b2 _; rfl
  | cons y ys ih =>
      intro b1 b2 h
      simp only [dedupFirstOcc, h y.id]
      by_cases hy : idMem y.id b2 = true
      · simp only [hy, if_true]
        exact ih b1 b2 h
      · simp only [Bool.not_eq_true] at hy
        simp only [hy, Bool.false_eq_true, if_false]
        have h2 : ∀ s, idMem s (y.id :: b1) = idMem s (y.id :: b2) := by
          intro s
          simp [idMem, h s]
        rw [ih (y.id :: b1) (y.id :: b2) h2]

theorem jsFindIndex_append_not_found (p : α → Bool) :
    ∀ (front : List α) (y : α) (rest : List α),
    (∀ x ∈ front, p x = false) → p y = true →
    jsFindIndex p (front ++ y :: rest) = (front.length : Int) := by
  intro front
  induction front with
  | nil =>
      intro y rest _ hy
      simp [jsFindIndex, hy]
  | cons f fs ih =>
      intro y rest hf hy
      have hpf : p f = false := hf f (by simp)
      have htail := ih y rest (fun x hx => hf x (by simp [hx])) hy
      have hne : (fs.length : Int) ≠ -1 := by omega
      simp only [List.cons_append, jsFindIndex, hpf, Bool.false_eq_true, if_false,
        List.append_eq, htail]
      rw [if_neg hne]
      simp only [List.length_cons]
      push_cast
      ring

theorem jsFindIndex_append_found (p : α → Bool) :
    ∀ (front : List α) (rest : List α), (∃ x ∈ front, p x = true) →
    ∃ k : Nat, jsFindIndex p (front ++ rest) = (k : Int) ∧ k < front.length := by
  intro front
  induction front with
  | nil =>
      rintro rest ⟨x, hx, _⟩
      simp at hx
  | cons f fs ih =>
      intro rest hex
      by_cases hpf : p f = true
      · exact ⟨0, by simp [jsFindIndex, hpf], by simp⟩
      · have hpf' : p f = false := by simpa using hpf
        obtain ⟨x, hx, hpx⟩ := hex
        have hxfs : x ∈ fs := by
          rcases List.mem_cons.mp hx with h1 | h1
          · subst h1; rw [hpx] at hpf'; cases hpf'
          · exact h1
        obtain ⟨k, hk, hklt⟩ := ih rest ⟨x, hxfs, hpx⟩
        have hne : (k : Int) ≠ -1 := by omega
        refine ⟨k + 1, ?_, by simp only [List.length_cons]; omega⟩
        simp only [List.cons_append, jsFindIndex, hpf', Bool.false_eq_true, if_false,
          List.append_eq, hk]
        rw [if_neg hne]
        push_cast
        ring

theorem dedup_bridge :
    ∀ (l front : List AutocompleteOption),
    ((withIdx front.length l).filter
      (fun p => jsFindIndex (fun o => o.id == p.2.id) (front ++ l) == (p.1 : Int))).map
      (fun p => p.2)
    = dedupFirstOcc (front.map (fun o => o.id)) l := by
  intro l
  induction l with
  | nil =>
      intro front
      simp [withIdx, dedupFirstOcc]
  | cons y ys ih =>
      intro front
      have hsplit : front ++ y :: ys = (front ++ [y]) ++ ys := by simp
      have hlen : front.length + 1 = (front ++ [y]).length := by simp
      by_cases hmem : idMem y.id (front.map (fun o => o.id)) = true
      · have hex : ∃ x ∈ front, x.id = y.id := by
          have h1 := (idMem_eq_true_iff y.id (front.map (fun o => o.id))).mp hmem
          obtain ⟨s, hs, hseq⟩ := h1
          obtain ⟨x, hxmem, hxeq⟩ := List.mem_map.mp hs
          exact ⟨x, hxmem, hxeq.trans hseq⟩
        obtain ⟨x, hx, hxid⟩ := hex
        obtain ⟨k, hk, hklt⟩ := jsFindIndex_append_found
          (fun o => o.id == y.id) front (y :: ys)
          ⟨x, hx, by simp [hxid]⟩
        have hcond :
            (jsFindIndex (fun o => o.id == y.id) (front ++ y :: ys) ==
              ((front.length : Nat) : Int)) = false := by
          rw [hk]
          exact beq_eq_false_iff_ne.mpr (by omega)
        simp only [withIdx, List.filter_cons, hcond, Bool.false_eq_true, if_false]
        rw [hsplit, hlen, ih (front ++ [y])]
        rw [dedupFirstOcc]
        simp only [hmem, if_true]
        apply dedupFirstOcc_congr
        intro s
        rw [List.map_append, List.map_singleton, idMem_append]
        cases hsy : (y.id == s) with
        | true =>
            have hs' : s = y.id := (beq_iff_eq.mp hsy).symm
            subst hs'
            simp [hmem]
        | false =>
            simp [hsy]
      · have hall : ∀ x ∈ front, ((fun o => o.id == y.id) x) = false := by
          intro x hx
          by_contra hne
          have hxid : x.id = y.id := by
            have := Bool.not_eq_false _ |>.mp hne
            simpa using this
          exact hmem ((idMem_eq_true_iff _ _).mpr
            ⟨x.id, List.mem_map_of_mem _ hx, hxid⟩)
        have hk := jsFindIndex_append_not_found (fun o => o.id == y.id)
          front y ys hall (by simp)
        have hcond :
            (jsFindIndex (fun o => o.id == y.id) (front ++ y :: ys) ==
              ((front.length : Nat) : Int)) = true := by
          rw [hk]
          simp
        simp only [withIdx, List.filter_cons, hcond, if_true, List.map_cons]
        rw [hsplit, hlen, ih (front ++ [y])]
        rw [dedupFirstOcc]
        simp only [Bool.not_eq_true] at hmem
        simp only [hmem, Bool.false_eq_true, if_false]
        congr 1
        apply dedupFirstOcc_congr
        intro s
        rw [List.map_append, List.map_singleton, idMem_append]
        simp [idMem, Bool.or_comm]

/-- The deduplication filter of the source is exactly deduplication by
id keeping the first occurrence. -/
theorem dedupById_eq (l : List AutocompleteOption) :
    dedupById l = dedupFirstOcc [] l := by
  have := dedup_bridge l []
  simpa [dedupById] using this

theorem rankLE_total (q : String) (a b : AutocompleteOption) :
    rankLE q a b = true ∨ rankLE q b a = true := by
  unfold rankLE
  cases hea : exactFlag q a <;> cases heb : exactFlag q b <;>
    simp_all <;> omega

theorem rankLE_trans (q : String) (a b c : AutocompleteOption)
    (hab : rankLE q a b = true) (hbc : rankLE q b c = true) :
    rankLE q a c = true := by
  unfold rankLE at hab hbc ⊢
  cases hea : exactFlag q a <;> cases heb : exactFlag q b <;>
    cases hec : exactFlag q c <;> simp_all <;> omega

theorem sortWith_pairwise (le : α → α → Bool)
    (htrans : ∀ a b c, le a b = true → le b c = true → le a c = true)
    (htotal : ∀ a b, le a b = true ∨ le b a = true) (l : List α) :
    List.Pairwise (fun a b => le a b = true) (sortWith le l) := by
  rw [sortWith_eq]
  haveI : IsTotal α (fun a b => le a b = true) := ⟨htotal⟩
  haveI : IsTrans α (fun a b => le a b = true) := ⟨htrans⟩
  exact List.sorted_insertionSort _ l

theorem sortWith_of_pairwise (le : α → α → Bool) (l : List α)
    (h : List.Pairwise (fun a b => le a b = true) l) :
    sortWith le l = l := by
  rw [sortWith_eq]
  exact List.Sorted.insertionSort_eq h

/-- Helper for the debounce theorem: while every later event arrives
strictly before the pending deadline, no intermediate timer fires, and
after the events stop the single surviving timer fires with the query
of the last event. -/
theorem runDebounce_chain (D : Nat) :
    ∀ (es : List (Nat × String)) (t : Nat) (q : String),
    List.Chain' (fun a b => b.1 < a.1 + D) ((t, q) :: es) →
    runDebounce D es (some (t + D, q)) = [(es.getLastD (t, q)).2] := by
  intro es
  induction es with
  | nil =>
      intro t q _
      rfl
  | cons e es' ih =>
      intro t q hch
      obtain ⟨t', q'⟩ := e
      obtain ⟨hr, htail⟩ := List.chain'_cons.mp hch
      have hnf : ¬ (t + D ≤ t') := by
        simp only at hr
        omega
      simp only [runDebounce, if_neg hnf, List.nil_append]
      rw [ih t' q' htail]
      rw [List.getLastD_cons]

/-- C1: the displayed results after a sequence of fetch resolutions are
simply those of the last resolution to arrive, because the success
continuation of performSearch stores every arriving result
unconditionally.  At the concrete failing input the fetch for the
superseded query ip resolves after the fetch for the newer query
iphone, and its results overwrite the iphone results, contradicting
the claim that the late-arriving response of a superseded search is
discarded. -/
theorem c1_late_resolution_overwrites :
    applyResolutions DEFAULT_SEARCH_CONFIG defaultFilterBy true true []
        [⟨"iphone", [iphoneOpt]⟩, ⟨"ip", [ipOpt]⟩]
      = filterOptions DEFAULT_SEARCH_CONFIG defaultFilterBy true true "ip" [ipOpt] ∧
    filterOptions DEFAULT_SEARCH_CONFIG defaultFilterBy true true "iphone" [iphoneOpt]
      = [iphoneOpt] ∧
    filterOptions DEFAULT_SEARCH_CONFIG defaultFilterBy true true "ip" [ipOpt]
      = [ipOpt] ∧
    ([ipOpt] : List AutocompleteOption) ≠ [iphoneOpt] := by
  refine ⟨by decide, by decide, by decide, by decide⟩

/-- C2: handleRemoveTag invokes the onChange callback in multi mode
even when no selected candidate carries the removed id.  At the
concrete failing input the selection is the single candidate optA with
id a, the removed id is b, every selected id differs from b, and the
callback is nevertheless invoked (with the unchanged selection),
contradicting the claim that it is not invoked for a no-op remove. -/
theorem c2_noop_remove_invokes_callback :
    (([optA] : List AutocompleteOption).all (fun v => v.id != "b")) = true ∧
    handleRemoveTag true [optA] "b" = some [optA] ∧
    handleRemoveTag true [optA] "b" ≠ none := by
  refine ⟨by decide, by decide, by decide⟩

/-- C3: the engine does not clamp an out-of-range maxResults.  With
maxResults 0 (out of range, nearest valid bound 1) and one candidate,
the search returns the empty list while the clamped configuration
returns the candidate, contradicting the claim that the search behaves
as if configured with the clamped value. -/
theorem c3_maxResults_not_clamped :
    filterOptions { DEFAULT_SEARCH_CONFIG with maxResults := 0 }
        defaultFilterBy true true "" [optA] = [] ∧
    clampMaxResults 0 = 1 ∧
    filterOptions { DEFAULT_SEARCH_CONFIG with maxResults := clampMaxResults 0 }
        defaultFilterBy true true "" [optA] = [optA] ∧
    ([] : List AutocompleteOption) ≠ [optA] := by
  refine ⟨by decide, by decide, by decide, by decide⟩

/-- C4: for every query strictly shorter than minQueryLength,
performSearch never invokes the onSearch collaborator (first component
false) and returns the fallback selection over the local candidates,
whether or not an onSearch collaborator is provided. -/
theorem c4_short_query_uses_fallback_no_fetch (cfg : SearchConfig)
    (fb : List Field) (sR sT : Bool)
    (onSearch : Option (String → FetchResult))
    (opts : List AutocompleteOption) (q : String)
    (h : q.length < cfg.minQueryLength) :
    performSearch cfg fb sR sT onSearch opts q
      = (false, fallbackResult cfg sR sT opts) := by
  have hlt : ¬ cfg.minQueryLength ≤ q.length := by omega
  have hfo : filterOptions cfg fb sR sT q opts = fallbackResult cfg sR sT opts := by
    simp only [filterOptions]
    rw [if_pos (Or.inr h)]
  cases onSearch with
  | none => simp [performSearch, hfo]
  | some fetch => simp [performSearch, hlt, hfo]

/-- Witness for C4 at a concrete input: the empty query under the
default configuration with an onSearch collaborator present. -/
theorem c4_short_query_witness :
    performSearch DEFAULT_SEARCH_CONFIG defaultFilterBy true true
        (some fetchStub) [optA] ""
      = (false, fallbackResult DEFAULT_SEARCH_CONFIG true true [optA]) :=
  c4_short_query_uses_fallback_no_fetch DEFAULT_SEARCH_CONFIG defaultFilterBy
    true true (some fetchStub) [optA] "" (by decide)

/-- C5: on the candidate pair MacBook Pro (popularity 90) and MacBook
Air (popularity 70) under the hybrid algorithm with fuzzyThreshold one
half, the misspelled query macbok returns both candidates with MacBook
Pro first: neither label starts with the query, so the order is by
descending popularity. -/
theorem c5_hybrid_typo_scenario :
    filterOptions DEFAULT_SEARCH_CONFIG defaultFilterBy true true "macbok"
        [macbookPro, macbookAir]
      = [macbookPro, macbookAir] ∧
    exactFlag "macbok" macbookPro = false ∧
    exactFlag "macbok" macbookAir = false := by
  refine ⟨by decide, by decide, by decide⟩

/-- C6: for every query shorter than minQueryLength and every
in-range maxResults, the result of filterOptions equals the
specification form of the fallback selection: the first three recent
candidates when showRecent is on, then the first three trending ones
when showTrending is on, then the first four of the stable
descending-popularity sort, deduplicated by id keeping the first
occurrence and truncated to maxResults. -/
theorem c6_fallback_matches_spec (cfg : SearchConfig) (fb : List Field)
    (sR sT : Bool) (q : String) (opts : List AutocompleteOption)
    (h1 : q.length < cfg.minQueryLength) (h2 : 0 ≤ cfg.maxResults) :
    filterOptions cfg fb sR sT q opts = fallbackSpec cfg sR sT opts := by
  simp only [filterOptions]
  rw [if_pos (Or.inr h1)]
  simp only [fallbackResult, fallbackSpec]
  rw [dedupById_eq, jsSliceTo_of_nonneg _ _ h2]

/-- Witness for C6 at the concrete fallback scenario of the spec: an
empty query under the default configuration with one recent candidate
and three candidates of popularity 10, 20 and 30. -/
theorem c6_fallback_witness :
    filterOptions DEFAULT_SEARCH_CONFIG defaultFilterBy true true ""
        [recOpt, pop10, pop20, pop30]
      = fallbackSpec DEFAULT_SEARCH_CONFIG true true
          [recOpt, pop10, pop20, pop30] :=
  c6_fallback_matches_spec DEFAULT_SEARCH_CONFIG defaultFilterBy true true ""
    [recOpt, pop10, pop20, pop30] (by decide) (by decide)

/-- C7: the Ranker is idempotent: for every candidate list and query,
ranking the already ranked list under the same query yields the same
order; and ranking is stable on ties in any list, mixed or not: two
candidates with equal comparator keys (same prefix-match status against
the query and equal popularity) that occur in that relative order in
the input still occur in that relative order in the ranked output. -/
theorem c7_ranker_idempotent (q : String) (l : List AutocompleteOption) :
    rank q (rank q l) = rank q l ∧
    (∀ a b : AutocompleteOption,
      exactFlag q a = exactFlag q b → popOf a = popOf b →
      List.Sublist [a, b] l → List.Sublist [a, b] (rank q l)) := by
  constructor
  · exact sortWith_of_pairwise _ _
      (sortWith_pairwise _ (rankLE_trans q) (rankLE_total q) l)
  · intro a b h1 h2 hsub
    have hab : rankLE q a b = true := by simp [rankLE, h1, h2]
    show List.Sublist [a, b] (sortWith (rankLE q) l)
    rw [sortWith_eq]
    exact List.pair_sublist_insertionSort hab hsub

/-- Witness for C7 at a concrete mixed input: two candidates of equal
popularity separated by a more popular one; ranking the mixed list is
idempotent and keeps the tied pair in input order. -/
theorem c7_ranker_witness :
    (rank "q" (rank "q" [tieA, optB, tieB]) = rank "q" [tieA, optB, tieB]) ∧
    List.Sublist [tieA, tieB] (rank "q" [tieA, optB, tieB]) :=
  ⟨(c7_ranker_idempotent "q" [tieA, optB, tieB]).1,
    (c7_ranker_idempotent "q" [tieA, optB, tieB]).2 tieA tieB (by decide)
      (by decide) (by decide)⟩

/-- C8: the fallback branch of filterOptions calls the in-place array
sort directly on the caller-supplied candidate array, so after the call
the array is reordered (here from ascending to descending popularity),
contradicting the claim that the input list holds the same elements in
the same order as before the call. -/
theorem c8_fallback_mutates_caller_array :
    filterOptionsPost DEFAULT_SEARCH_CONFIG "" [optA, optB] = [optB, optA] ∧
    ([optB, optA] : List AutocompleteOption) ≠ [optA, optB] := by
  refine ⟨by decide, by decide⟩

/-- C9: when every one of a nonempty sequence of query-change events
arrives strictly within debounceMs of the previous one, exactly one
search fires once the events stop, and it carries the query of the
last event; every earlier pending timer is cancelled, not queued. -/
theorem c9_debounce_last_query_only (D : Nat)
    (events : List (Nat × String)) (h1 : events ≠ [])
    (h2 : List.Chain' (fun a b => b.1 < a.1 + D) events) :
    runDebounce D events none = [(events.getLastD (0, "")).2] := by
  obtain ⟨e, es, rfl⟩ := List.exists_cons_of_ne_nil h1
  obtain ⟨t, q⟩ := e
  show (([] : List String) ++ runDebounce D es (some (t + D, q))) = _
  rw [List.nil_append, runDebounce_chain D es t q h2, List.getLastD_cons]

/-- Witness for C9 at a concrete input: three keystrokes at times 0,
100 and 200 with a 300 millisecond debounce fire exactly one search,
for the final query abc. -/
theorem c9_debounce_witness :
    runDebounce 300 [(0, "a"), (100, "ab"), (200, "abc")] none
      = [(([((0 : Nat), "a"), (100, "ab"), (200, "abc")]).getLastD (0, "")).2] :=
  c9_debounce_last_query_only 300 [(0, "a"), (100, "ab"), (200, "abc")]
    (by decide)
    (List.Chain'.cons (by decide) (List.Chain'.cons (by decide)
      (List.chain'_singleton _)))

/-- C10: for every configuration, including one with minQueryLength 0,
filterOptions on the empty query takes the fallback branch: the result
is the fallback selection, and it is unchanged under any replacement of
the matching algorithm and fuzzy threshold, so no matching strategy is
ever evaluated against the empty query. -/
theorem c10_empty_query_fallback (cfg : SearchConfig) (fb : List Field)
    (sR sT : Bool) (opts : List AutocompleteOption) (alg : Algorithm)
    (t : ℚ) :
    filterOptions cfg fb sR sT "" opts = fallbackResult cfg sR sT opts ∧
    filterOptions { cfg with algorithm := alg, fuzzyThreshold := t } fb sR sT
        "" opts
      = filterOptions cfg fb sR sT "" opts := by
  have h0 : ("" : String).length = 0 := rfl
  constructor
  · simp only [filterOptions]
    rw [if_pos (Or.inl h0)]
  · simp only [filterOptions]
    rw [if_pos (Or.inl h0), if_pos (Or.inl h0)]
    rfl

end Autocomplete
